import Mathlib

set_option maxRecDepth 100000

/-!
Verification of the oppdrop scraper pipeline: a shallow embedding of the
shared normalization core (stable id generation, deadline extraction, tag
inference, merge/dedupe on refresh, override application, response cache)
together with theorems settling the specified properties.

Python strings are modelled as Lean `String`/`List Char`; `str.lower` and
`str.strip` are modelled on their ASCII behaviour; `hashlib.md5` is
implemented in full so that identifier equalities and inequalities are
decidable.
-/

/-! ## Python string primitives -/

/-- ASCII lowercasing, modelling `str.lower` on ASCII text. -/
def pyLowerChar (c : Char) : Char :=
  if 'A' ≤ c ∧ c ≤ 'Z' then Char.ofNat (c.toNat + 32) else c

def pyLower (s : String) : String :=
  String.mk (s.data.map pyLowerChar)

/-- ASCII whitespace, the characters stripped by `str.strip`. -/
def isPySpace (c : Char) : Bool :=
  c = ' ' || c = '\t' || c = '\n' || c = '\r' || c = '\x0b' || c = '\x0c'

def pyStripList (l : List Char) : List Char :=
  ((l.dropWhile isPySpace).reverse.dropWhile isPySpace).reverse

/-- Modelling `str.strip()`: trim leading and trailing whitespace. -/
def pyStrip (s : String) : String :=
  String.mk (pyStripList s.data)

/-- Python substring membership `pat in s`. -/
def containsSub (s pat : List Char) : Bool :=
  (List.range (s.length + 1)).any (fun i => pat.isPrefixOf (s.drop i))

/-- UTF-8 encoding of one character, modelling `str.encode()`. -/
def utf8Char (c : Char) : List Nat :=
  let n := c.toNat
  if n < 128 then [n]
  else if n < 2048 then [192 + n / 64, 128 + n % 64]
  else if n < 65536 then [224 + n / 4096, 128 + n / 64 % 64, 128 + n % 64]
  else [240 + n / 262144, 128 + n / 4096 % 64, 128 + n / 64 % 64, 128 + n % 64]

def strBytes (s : String) : List Nat :=
  s.data.flatMap utf8Char

/-! ## MD5 (`hashlib.md5`) -/

/-- Round constants `K[i] = floor(2^32 * abs(sin(i+1)))` of MD5. -/
def md5K : List Nat :=
  [0xd76aa478, 0xe8c7b756, 0x242070db, 0xc1bdceee,
   0xf57c0faf, 0x4787c62a, 0xa8304613, 0xfd469501,
   0x698098d8, 0x8b44f7af, 0xffff5bb1, 0x895cd7be,
   0x6b901122, 0xfd987193, 0xa679438e, 0x49b40821,
   0xf61e2562, 0xc040b340, 0x265e5a51, 0xe9b6c7aa,
   0xd62f105d, 0x02441453, 0xd8a1e681, 0xe7d3fbc8,
   0x21e1cde6, 0xc33707d6, 0xf4d50d87, 0x455a14ed,
   0xa9e3e905, 0xfcefa3f8, 0x676f02d9, 0x8d2a4c8a,
   0xfffa3942, 0x8771f681, 0x6d9d6122, 0xfde5380c,
   0xa4beea44, 0x4bdecfa9, 0xf6bb4b60, 0xbebfbc70,
   0x289b7ec6, 0xeaa127fa, 0xd4ef3085, 0x04881d05,
   0xd9d4d039, 0xe6db99e5, 0x1fa27cf8, 0xc4ac5665,
   0xf4292244, 0x432aff97, 0xab9423a7, 0xfc93a039,
   0x655b59c3, 0x8f0ccc92, 0xffeff47d, 0x85845dd1,
   0x6fa87e4f, 0xfe2ce6e0, 0xa3014314, 0x4e0811a1,
   0xf7537e82, 0xbd3af235, 0x2ad7d2bb, 0xeb86d391]

/-- Per-round left-rotation amounts of MD5. -/
def md5S : List Nat :=
  [7, 12, 17, 22, 7, 12, 17, 22, 7, 12, 17, 22, 7, 12, 17, 22,
   5,  9, 14, 20, 5,  9, 14, 20, 5,  9, 14, 20, 5,  9, 14, 20,
   4, 11, 16, 23, 4, 11, 16, 23, 4, 11, 16, 23, 4, 11, 16, 23,
   6, 10, 15, 21, 6, 10, 15, 21, 6, 10, 15, 21, 6, 10, 15, 21]

def rotl32 (x n : Nat) : Nat :=
  ((x <<< n) ||| (x >>> (32 - n))) % 4294967296

/-- Little-endian bytes of a 64-bit quantity. -/
def le8 (n : Nat) : List Nat :=
  [n % 256, n / 256 % 256, n / 65536 % 256, n / 16777216 % 256,
   n / 4294967296 % 256, n / 1099511627776 % 256,
   n / 281474976710656 % 256, n / 72057594037927936 % 256]

/-- Little-endian bytes of a 32-bit word. -/
def le4 (n : Nat) : List Nat :=
  [n % 256, n / 256 % 256, n / 65536 % 256, n / 16777216 % 256]

/-- MD5 padding: a `0x80` byte, zeros to 56 mod 64, then the bit length. -/
def md5Pad (msg : List Nat) : List Nat :=
  msg ++ [128] ++ List.replicate ((119 - msg.length % 64) % 64) 0 ++ le8 (8 * msg.length)

/-- Split a 64-byte block into 16 little-endian 32-bit words. -/
def leWords : List Nat → List Nat
  | b0 :: b1 :: b2 :: b3 :: rest =>
      (b0 + 256 * b1 + 65536 * b2 + 16777216 * b3) :: leWords rest
  | _ => []

/-- The 64 MD5 rounds on one message block. -/
def md5Rounds (ws : List Nat) (st : Nat × Nat × Nat × Nat) : Nat × Nat × Nat × Nat :=
  (List.range 64).foldl
    (fun st i =>
      let (a, b, c, d) := st
      let fg : Nat × Nat :=
        if i < 16 then ((b &&& c) ||| ((b ^^^ 4294967295) &&& d), i)
        else if i < 32 then ((d &&& b) ||| ((d ^^^ 4294967295) &&& c), (5 * i + 1) % 16)
        else if i < 48 then (b ^^^ c ^^^ d, (3 * i + 5) % 16)
        else (c ^^^ (b ||| (d ^^^ 4294967295)), (7 * i) % 16)
      let tmp := (a + fg.1 + md5K.getD i 0 + ws.getD fg.2 0) % 4294967296
      (d, (b + rotl32 tmp (md5S.getD i 0)) % 4294967296, b, c))
    st

/-- Process `n` 64-byte blocks. -/
def md5Loop : Nat → List Nat → Nat × Nat × Nat × Nat → Nat × Nat × Nat × Nat
  | 0, _, st => st
  | n + 1, bytes, st =>
      let st2 := md5Rounds (leWords (bytes.take 64)) st
      md5Loop n (bytes.drop 64)
        ((st.1 + st2.1) % 4294967296, (st.2.1 + st2.2.1) % 4294967296,
         (st.2.2.1 + st2.2.2.1) % 4294967296, (st.2.2.2 + st2.2.2.2) % 4294967296)

def hexChar (n : Nat) : Char :=
  if n < 10 then Char.ofNat (48 + n) else Char.ofNat (87 + n)

def byteHex (b : Nat) : List Char :=
  [hexChar (b / 16), hexChar (b % 16)]

/-- `hashlib.md5(bytes).hexdigest()`. -/
def md5hex (msg : List Nat) : String :=
  let padded := md5Pad msg
  let st := md5Loop (padded.length / 64) padded (1732584193, 4023233417, 2562383102, 271733878)
  String.mk ((le4 st.1 ++ le4 st.2.1 ++ le4 st.2.2.1 ++ le4 st.2.2.2).flatMap byteHex)

/-! ## Stable id generation (`generate_id` of both scrapers) -/

/-- The normalized key `f"{name.lower().strip()}|{source.lower().strip()}"`. -/
def normalizeId (name source : String) : String :=
  pyStrip (pyLower name) ++ "|" ++ pyStrip (pyLower source)

/-- `generate_id`: md5 of the normalized key, truncated to 12 hex chars. -/
def generate_id (name source : String) : String :=
  (md5hex (strBytes (normalizeId name source))).take 12

/-! ## Regex engine for the source patterns

The deadline patterns use a small regex fragment: literals, alternation,
option, one-or-more / zero-or-more over a character class, and a single
capturing group.  Matching follows Python backtracking preference order
(`re.search` with `re.IGNORECASE`): leftmost start position first, and at a
given position alternatives in written order with greedy quantifiers. -/

inductive RE where
  | cls : (Char → Bool) → RE
  | lit : List Char → RE
  | seq : RE → RE → RE
  | alt : RE → RE → RE
  | opt : RE → RE
  | many1 : (Char → Bool) → RE
  | many0 : (Char → Bool) → RE
  | grp : RE → RE

/-- Result of a match attempt: the captured group, when one was set. -/
abbrev MRes := Option (List Char)

/-- Case-insensitive literal consumption. -/
def litConsume : List Char → List Char → Option (List Char)
  | [], s => some s
  | _ :: _, [] => none
  | p :: ps, c :: cs => if pyLowerChar p = pyLowerChar c then litConsume ps cs else none

/-- Greedy repetition: try consuming `j, j-1, …, 1` characters. -/
def tryLens (s : List Char) (cap : MRes) (k : List Char → MRes → Option MRes) :
    Nat → Option MRes
  | 0 => none
  | j + 1 => (k (s.drop (j + 1)) cap) <|> tryLens s cap k j

/-- Backtracking matcher in continuation-passing style; returns the first
success in Python preference order. -/
def mrun : RE → List Char → MRes → (List Char → MRes → Option MRes) → Option MRes
  | .cls p, s, cap, k =>
      match s with
      | [] => none
      | c :: rest => if p c then k rest cap else none
  | .lit l, s, cap, k =>
      match litConsume l s with
      | some rest => k rest cap
      | none => none
  | .seq r1 r2, s, cap, k => mrun r1 s cap (fun s2 c2 => mrun r2 s2 c2 k)
  | .alt r1 r2, s, cap, k => (mrun r1 s cap k) <|> (mrun r2 s cap k)
  | .opt r, s, cap, k => (mrun r s cap k) <|> k s cap
  | .many1 p, s, cap, k => tryLens s cap k ((s.takeWhile p).length)
  | .many0 p, s, cap, k => (tryLens s cap k ((s.takeWhile p).length)) <|> k s cap
  | .grp r, s, cap, k => mrun r s cap (fun s2 _ => k s2 (some (s.take (s.length - s2.length))))

/-- `re.search`: leftmost start position wins. -/
def searchFrom (r : RE) : List Char → Option MRes
  | [] => mrun r [] none (fun _ cap => some cap)
  | c :: rest => (mrun r (c :: rest) none (fun _ cap => some cap)) <|> searchFrom r rest

def reSearch (r : RE) (s : String) : Option MRes :=
  searchFrom r s.data

/-! Character classes of the source patterns. -/

def isAlphaAZ (c : Char) : Bool := ('A' ≤ c && c ≤ 'Z') || ('a' ≤ c && c ≤ 'z')

def isDigitC (c : Char) : Bool := '0' ≤ c && c ≤ '9'

def isWsC (c : Char) : Bool := isPySpace c

def isColonWs (c : Char) : Bool := c = ':' || isWsC c

def reStr (s : String) : RE := .lit s.data

def seqL : List RE → RE
  | [] => .lit []
  | [r] => r
  | r :: rest => .seq r (seqL rest)

def altL : List RE → RE
  | [] => .lit []
  | [r] => r
  | r :: rest => .alt r (altL rest)

/-- `\d{1,2}` -/
def d12 : RE := .seq (.cls isDigitC) (.opt (.cls isDigitC))

/-- `\d{4}` -/
def d4 : RE := seqL [.cls isDigitC, .cls isDigitC, .cls isDigitC, .cls isDigitC]

/-- `(?:st|nd|rd|th)` -/
def ordSuf : RE := altL [reStr "st", reStr "nd", reStr "rd", reStr "th"]

/-- `[A-Za-z]+\s+\d{1,2},?\s+\d{4}` -/
def innerDate : RE :=
  seqL [.many1 isAlphaAZ, .many1 isWsC, d12, .opt (reStr ","), .many1 isWsC, d4]

/-- `[A-Za-z]+\s+\d{1,2}(?:st|nd|rd|th)?,?\s+\d{4}` -/
def innerDateOrd : RE :=
  seqL [.many1 isAlphaAZ, .many1 isWsC, d12, .opt ordSuf, .opt (reStr ","), .many1 isWsC, d4]

/-- `(?:Monday|Tuesday|Wednesday|Thursday|Friday|Saturday|Sunday)` -/
def weekdayAlt : RE :=
  altL [reStr "Monday", reStr "Tuesday", reStr "Wednesday", reStr "Thursday",
        reStr "Friday", reStr "Saturday", reStr "Sunday"]

def monthFull : List String :=
  ["January", "February", "March", "April", "May", "June", "July",
   "August", "September", "October", "November", "December"]

def monthAbbr : List String :=
  ["Jan", "Feb", "Mar", "Apr", "May", "Jun", "Jul", "Aug", "Sep", "Oct", "Nov", "Dec"]

/-- `(January|February|…|December)` -/
def monthAlt : RE := altL (monthFull.map reStr)

/-! ## Ordinal suffix removal: `re.sub(r'(\d+)(?:st|nd|rd|th)', r'\1', display)` -/

def ordPair (a b : Char) : Bool :=
  (a = 's' && b = 't') || (a = 'n' && b = 'd') || (a = 'r' && b = 'd') || (a = 't' && b = 'h')

def stripOrdinals : List Char → List Char
  | [] => []
  | [c] => [c]
  | [c, a] => [c, a]
  | c :: a :: b :: rest =>
      if isDigitC c && ordPair a b then c :: stripOrdinals rest
      else c :: stripOrdinals (a :: b :: rest)

/-! ## `datetime.strptime` for the formats used by the deadline parsers

The formats are `'%B %d, %Y'`, `'%B %d %Y'`, `'%b %d, %Y'`, `'%b %d %Y'`.
CPython compiles a format to a regex (whitespace in the format becomes
`\s+`, `%d` is `(3[01]|[12]\d|0[1-9]|[1-9])`, `%Y` is four digits), matches
case-insensitively from the start, requires full consumption, and finally
validates the date through the `datetime` constructor. -/

def matchMonthAux : List String → Nat → List Char → Option (Nat × List Char)
  | [], _, _ => none
  | n :: rest, idx, s =>
      match litConsume n.data s with
      | some r => some (idx, r)
      | none => matchMonthAux rest (idx + 1) s

/-- `\s+` consumed greedily (deterministic: what follows is never whitespace). -/
def ws1 (s : List Char) : Option (List Char) :=
  let n := (s.takeWhile isWsC).length
  if n = 0 then none else some (s.drop n)

def fourDigits (s : List Char) : Option (Nat × List Char) :=
  match s with
  | a :: b :: c :: d :: rest =>
      if isDigitC a && isDigitC b && isDigitC c && isDigitC d then
        some (1000 * (a.toNat - 48) + 100 * (b.toNat - 48) + 10 * (c.toNat - 48)
              + (d.toNat - 48), rest)
      else none
  | _ => none

def isLeap (y : Nat) : Bool := y % 4 = 0 && (y % 100 ≠ 0 || y % 400 = 0)

def daysInMonth (y m : Nat) : Nat :=
  if m = 2 then (if isLeap y then 29 else 28)
  else if m = 4 ∨ m = 6 ∨ m = 9 ∨ m = 11 then 30
  else 31

/-- After the day: optional comma (per format), `\s+`, four-digit year, end of
input, and `datetime(year, month, day)` validity. -/
def dateTail (commaFmt : Bool) (m d : Nat) (s : List Char) : Option (Nat × Nat × Nat) :=
  (if commaFmt then (match s with | ',' :: r => some r | _ => none) else some s).bind fun s2 =>
  (ws1 s2).bind fun s3 =>
  (fourDigits s3).bind fun yr =>
  if yr.2 = [] ∧ 1 ≤ yr.1 ∧ d ≤ daysInMonth yr.1 m then some (yr.1, m, d) else none

/-- `%d`: two-digit alternatives (values 1–31) are preferred over one-digit
(1–9), with backtracking into the rest of the format. -/
def parseDay (commaFmt : Bool) (m : Nat) : List Char → Option (Nat × Nat × Nat)
  | a :: rest =>
      if isDigitC a then
        match rest with
        | b :: rest2 =>
            if isDigitC b then
              (let d := 10 * (a.toNat - 48) + (b.toNat - 48)
               if 1 ≤ d ∧ d ≤ 31 then dateTail commaFmt m d rest2 else none) <|>
              (if 1 ≤ a.toNat - 48 then dateTail commaFmt m (a.toNat - 48) rest else none)
            else if 1 ≤ a.toNat - 48 then dateTail commaFmt m (a.toNat - 48) rest else none
        | [] => none
      else none
  | [] => none

def strptimeDate (fullMonth commaFmt : Bool) (s : List Char) : Option (Nat × Nat × Nat) :=
  (matchMonthAux (if fullMonth then monthFull else monthAbbr) 1 s).bind fun ms =>
  (ws1 ms.2).bind fun s2 =>
  parseDay commaFmt ms.1 s2

def digitChar10 (n : Nat) : Char := Char.ofNat (48 + n % 10)

/-- `dt.strftime('%Y-%m-%d')` for a validated date. -/
def isoOfDate (y m d : Nat) : String :=
  String.mk [digitChar10 (y / 1000), digitChar10 (y / 100), digitChar10 (y / 10),
             digitChar10 y, '-', digitChar10 (m / 10), digitChar10 m, '-',
             digitChar10 (d / 10), digitChar10 d]

/-- Try the four date formats in source order; `ValueError` is `none`. -/
def tryParseIso (clean : List Char) : Option String :=
  match (strptimeDate true true clean) <|> (strptimeDate true false clean) <|>
        (strptimeDate false true clean) <|> (strptimeDate false false clean) with
  | some ymd => some (isoOfDate ymd.1 ymd.2.1 ymd.2.2)
  | none => none

/-! ## `parse_deadline` (urf_scraper.py) -/

namespace URF

/-- `(?:Monday|…|Sunday),?\s+([A-Za-z]+\s+\d{1,2},?\s+\d{4})` -/
def pat1 : RE := seqL [weekdayAlt, .opt (reStr ","), .many1 isWsC, .grp innerDate]

/-- `deadline[:\s]+(?:[A-Za-z]+,?\s+)?([A-Za-z]+\s+\d{1,2}(?:st|nd|rd|th)?,?\s+\d{4})` -/
def pat2 : RE :=
  seqL [reStr "deadline", .many1 isColonWs,
        .opt (seqL [.many1 isAlphaAZ, .opt (reStr ","), .many1 isWsC]),
        .grp innerDateOrd]

/-- `due[:\s]+([A-Za-z]+\s+\d{1,2}(?:st|nd|rd|th)?,?\s+\d{4})` -/
def pat3 : RE := seqL [reStr "due", .many1 isColonWs, .grp innerDateOrd]

/-- `applications?\s+(?:due|close)[:\s]*(…)` -/
def pat4 : RE :=
  seqL [reStr "application", .opt (reStr "s"), .many1 isWsC,
        .alt (reStr "due") (reStr "close"), .many0 isColonWs, .grp innerDateOrd]

/-- `(?:by|before)\s+(…)` -/
def pat5 : RE := seqL [.alt (reStr "by") (reStr "before"), .many1 isWsC, .grp innerDateOrd]

/-- `(…)\s+deadline` -/
def pat6 : RE := seqL [.grp innerDateOrd, .many1 isWsC, reStr "deadline"]

/-- `(January|…|December)\s+\d{1,2}(?:st|nd|rd|th)?,?\s+\d{4}` — the capture
group holds only the month name. -/
def pat7 : RE :=
  seqL [.grp monthAlt, .many1 isWsC, d12, .opt ordSuf, .opt (reStr ","), .many1 isWsC, d4]

/-- The pattern list of `parse_deadline`, in source order. -/
def patterns : List RE := [pat1, pat2, pat3, pat4, pat5, pat6, pat7]

/-- The loop body of `parse_deadline`: first matching pattern wins; the
display is `match.group(1).strip()` and the iso field is the first date
format that parses the ordinal-stripped display. -/
def pdGo (text : String) : List RE → Option String × Option String
  | [] => (none, none)
  | p :: rest =>
      match reSearch p text with
      | some cap =>
          let display := pyStrip (String.mk (cap.getD []))
          (tryParseIso (stripOrdinals display.data), some display)
      | none => pdGo text rest

/-- `parse_deadline` of urf_scraper.py. -/
def parse_deadline (text : String) : Option String × Option String :=
  pdGo text patterns

end URF

/-! ## `deadline` (mei_scraper.py) -/

namespace MEI

/-- `(?:deadline)[:\s]+(…)` -/
def pat1 : RE := seqL [reStr "deadline", .many1 isColonWs, .grp innerDateOrd]

/-- `(?:due)[:\s]+(…)` -/
def pat2 : RE := seqL [reStr "due", .many1 isColonWs, .grp innerDateOrd]

/-- `(?:by|before)\s+(…)` -/
def pat3 : RE := seqL [.alt (reStr "by") (reStr "before"), .many1 isWsC, .grp innerDateOrd]

/-- `(…)\s+deadline` -/
def pat4 : RE := seqL [.grp innerDateOrd, .many1 isWsC, reStr "deadline"]

def patterns : List RE := [pat1, pat2, pat3, pat4]

def dlGo (text : String) : List RE → Option String
  | [] => none
  | p :: rest =>
      match reSearch p text with
      | some cap => some (pyStrip (String.mk (cap.getD [])))
      | none => dlGo text rest

/-- `deadline` of mei_scraper.py: returns the raw matched phrase, never an
ISO conversion. -/
def deadline (text : String) : Option String :=
  dlGo text patterns

/-- The `"deadline"` entry of the record built in `scrape`:
`dl if dl else deadline(description)`. -/
def oppDeadline (dl : Option String) (description : String) : Option String :=
  match dl with
  | some d => some d
  | none => deadline description

end MEI

/-! ## Funding amounts and tag inference -/

def isDigComma (c : Char) : Bool := isDigitC c || c = ','

/-- `re.findall(r'\$[\d,]+', text)`: leftmost non-overlapping greedy
matches.  Fuelled by the input length, which every recursive call
decreases at least as fast as the fuel. -/
def findAmountsAux : Nat → List Char → List String
  | 0, _ => []
  | _, [] => []
  | fuel + 1, c :: rest =>
      if c = '$' then
        let run := rest.takeWhile isDigComma
        if run.length = 0 then findAmountsAux fuel rest
        else String.mk ('$' :: run) :: findAmountsAux fuel (rest.drop run.length)
      else findAmountsAux fuel rest

def findAmounts (l : List Char) : List String := findAmountsAux l.length l

/-- `list(dict.fromkeys(l))`: deduplicate keeping first-seen order. -/
def dfsAux : List String → List String → List String
  | _, [] => []
  | seen, x :: rest => if x ∈ seen then dfsAux seen rest else x :: dfsAux (x :: seen) rest

def dedupFirstSeen (l : List String) : List String := dfsAux [] l

/-- `bool(re.search(r'(?<!under)graduate student', t))`, the boundary-aware
graduate-student test shared verbatim by both scrapers. -/
def gradStudentSearch (t : List Char) : Bool :=
  (List.range (t.length + 1)).any (fun i =>
    ("graduate student".data.isPrefixOf (t.drop i)) &&
    !(decide (5 ≤ i) && "under".data.isPrefixOf (t.drop (i - 5))))

def anySub (t : List Char) (pats : List String) : Bool :=
  pats.any (fun p => containsSub t p.data)

def aposC : Char := '\''

/-- The keyword `"master's"` (spelled out to keep the source string exact). -/
def mastersKw : String := String.mk ['m', 'a', 's', 't', 'e', 'r', aposC, 's']

def tagsGet (tags : List (String × List String)) (k : String) : List String :=
  ((tags.find? (fun kv => kv.1 == k)).map (fun kv => kv.2)).getD []

/-- The final dict comprehension of both `generate_tags`:
`{k: v for k, v in tags.items() if v}` over the five fixed categories. -/
def assembleTags (lv cz ty fd fu : List String) : List (String × List String) :=
  ([("level", lv), ("citizenship", cz), ("type", ty),
    ("field", fd), ("funding", fu)]).filter (fun kv => !kv.2.isEmpty)

namespace MEI

/-- `generate_tags` of mei_scraper.py. -/
def generate_tags (text : String) : List (String × List String) :=
  let t := (pyLower text).data
  let has_undergrad := anySub t ["undergraduate", "undergrad"]
  let has_grad_keyword := anySub t [mastersKw, "master ", "doctoral", "phd", "ph.d", "dissertation"]
  let has_grad := has_grad_keyword || gradStudentSearch t
  let level :=
    (if has_undergrad then ["undergraduate"] else []) ++
    (if has_grad then ["graduate"] else []) ++
    (if containsSub t "postdoc".data || containsSub t "post-doc".data then ["postdoc"] else [])
  let mentions_us := anySub t ["u.s. citizen", "us citizen", "american citizen"]
  let mentions_pr := containsSub t "permanent resident".data
  let mentions_intl := anySub t ["international", "non-u.s", "non-us", "foreign", "displaced"]
  let excludes_us := anySub t
    ["not us citizen", "not u.s. citizen", "not american citizen",
     "are not us", "are not u.s.", "neither american citizen",
     "who are not us", "who are not u.s."]
  let excludes_pr := anySub t
    ["not permanent resident", "nor permanent resident",
     "neither american citizens or permanent", "not us citizens or permanent",
     "are not us citizens or permanent", "not american citizens or permanent"]
  let citizenship :=
    (if mentions_intl || excludes_us then ["international"] else []) ++
    (if mentions_us && !excludes_us then ["us_citizen"] else []) ++
    (if mentions_pr && !excludes_pr then ["permanent_resident"] else [])
  let ty :=
    (if containsSub t "fellowship".data then ["fellowship"] else []) ++
    (if containsSub t "scholarship".data then ["scholarship"] else []) ++
    (if containsSub t "grant".data then ["grant"] else []) ++
    (if containsSub t "research".data then ["research"] else []) ++
    (if containsSub t "travel".data then ["travel"] else []) ++
    (if anySub t ["language", "arabic", "hebrew", "persian", "turkish"] then ["language"] else [])
  let field :=
    (if anySub t ["middle east", "islamic", "muslim", "mena"] then ["middle_east_studies"] else []) ++
    (if anySub t ["humanities", "humanistic"] then ["humanities"] else []) ++
    (if anySub t ["social science"] then ["social_sciences"] else [])
  let funding := (findAmounts text.data).take 2
  assembleTags level citizenship ty field funding

end MEI

namespace URF

/-- `generate_tags` of urf_scraper.py. -/
def generate_tags (text : String) : List (String × List String) :=
  let t := (pyLower text).data
  let has_undergrad := anySub t ["undergraduate", "undergrad"]
  let has_grad_keyword := anySub t [mastersKw, "master ", "doctoral", "phd", "ph.d", "dissertation"]
  let has_grad := has_grad_keyword || gradStudentSearch t
  let level :=
    (if has_undergrad then ["undergraduate"] else []) ++
    (if has_grad then ["graduate"] else []) ++
    (if containsSub t "postdoc".data || containsSub t "post-doc".data then ["postdoc"] else [])
  let mentions_us := anySub t ["u.s. citizen", "us citizen", "american citizen"]
  let mentions_pr := containsSub t "permanent resident".data
  let mentions_intl := anySub t ["international", "non-u.s", "non-us", "foreign"]
  let mentions_not_us := containsSub t "not u.s. citizen or permanent resident".data
  let excludes_us := anySub t
    ["not us citizen", "not u.s. citizen", "not american citizen",
     "are not us", "are not u.s.", "who are not us"] &&
    !(containsSub t "not u.s. citizen or permanent resident".data)
  let citizenship :=
    (if mentions_intl || mentions_not_us then ["international"] else []) ++
    (if mentions_us && !excludes_us then ["us_citizen"] else []) ++
    (if mentions_pr && !excludes_us then ["permanent_resident"] else [])
  let ty :=
    (if containsSub t "fellowship".data then ["fellowship"] else []) ++
    (if containsSub t "scholarship".data then ["scholarship"] else []) ++
    (if containsSub t "grant".data then ["grant"] else []) ++
    (if containsSub t "research".data then ["research"] else []) ++
    (if containsSub t "travel".data then ["travel"] else []) ++
    (if containsSub t "internship".data then ["internship"] else []) ++
    (if anySub t ["language", "study abroad"] then ["language"] else [])
  let field : List String := []
  let funding := (dedupFirstSeen (findAmounts text.data)).take 3
  assembleTags level citizenship ty field funding

end URF

/-! ## Merge/dedupe on refresh (`dedupe` and `main` of both scrapers) -/

/-- The fields of a store record that the merge step inspects. -/
structure MOpp where
  id : String
  name : String
  source : String
  source_url : String
deriving DecidableEq, Repr

/-- `dedupe`: first-seen-wins deduplication by id (`seen` dict). -/
def dedupeAux : List String → List MOpp → List MOpp
  | _, [] => []
  | seen, o :: rest =>
      if o.id ∈ seen then dedupeAux seen rest
      else o :: dedupeAux (o.id :: seen) rest

def dedupe (l : List MOpp) : List MOpp := dedupeAux [] l

namespace URF

/-- The merge step of urf_scraper `main`: drop existing URF records
(`o.get("source") != "URF"`), append the freshly scraped batch (itself
deduped first), and dedupe the combination. -/
def mergeStep (existing opps : List MOpp) : List MOpp :=
  dedupe ((existing.filter (fun o => o.source != "URF")) ++ dedupe opps)

end URF

namespace MEI

/-- The merge step of mei_scraper `main`: drop existing records whose
`source_url` contains `"mei.columbia.edu"`, append the fresh batch, dedupe. -/
def mergeStep (existing opps : List MOpp) : List MOpp :=
  dedupe ((existing.filter (fun o => !containsSub o.source_url.data "mei.columbia.edu".data))
          ++ dedupe opps)

end MEI

/-! ## Override application (`apply_overrides.py`) -/

/-- JSON-ish values occurring in records and patches. -/
inductive JVal where
  | str : String → JVal
  | bool : Bool → JVal
  | null : JVal
deriving DecidableEq, Repr

/-- Python truthiness of an optional value (`override.get(key)`). -/
def truthy : Option JVal → Bool
  | none => false
  | some (.str s) => !s.isEmpty
  | some (.bool b) => b
  | some .null => false

/-- A record / patch: an insertion-ordered dict with string keys. -/
abbrev PyDict := List (String × JVal)

def dictGet (d : PyDict) (k : String) : Option JVal :=
  ((d.find? (fun kv => kv.1 == k)).map (fun kv => kv.2))

/-- `d[k] = v`: replace in place when the key exists, else append. -/
def dictSet (d : PyDict) (k : String) (v : JVal) : PyDict :=
  match d with
  | [] => [(k, v)]
  | kv :: rest => if kv.1 = k then (k, v) :: rest else kv :: dictSet rest k v

/-- `opp.get("id")` as the override key: only string ids can match the
string keys of the JSON overrides object. -/
def idOf (o : PyDict) : Option String :=
  match dictGet o "id" with
  | some (.str s) => some s
  | _ => none

abbrev Patch := List (String × JVal)

abbrev Overrides := List (String × Patch)

def ovGet (ov : Overrides) (i : String) : Option Patch :=
  ((ov.find? (fun kv => kv.1 == i)).map (fun kv => kv.2))

/-- The patch loop: `opp[key] = value` for every key except the reserved
metadata keys `note` and `deleted`. -/
def applyPatch (o : PyDict) (p : Patch) : PyDict :=
  p.foldl (fun acc kv =>
    if kv.1 = "note" ∨ kv.1 = "deleted" then acc else dictSet acc kv.1 kv.2) o

/-- Is this record marked for deletion by the overrides? -/
def markedOf (ov : Overrides) : Option String → Bool
  | some i =>
      match ovGet ov i with
      | some p => truthy (dictGet p "deleted")
      | none => false
  | none => false

def markedDel (ov : Overrides) (o : PyDict) : Bool := markedOf ov (idOf o)

/-- One loop iteration on a record: deletion-marked records are left as-is
(`continue`), overridden records are patched, others untouched. -/
def patchStep (ov : Overrides) (o : PyDict) : PyDict :=
  match idOf o with
  | some i =>
      match ovGet ov i with
      | some p => if truthy (dictGet p "deleted") then o else applyPatch o p
      | none => o
  | none => o

/-- The `to_delete` id set accumulated by the loop. -/
def toDelete (ov : Overrides) (store : List PyDict) : List String :=
  store.filterMap (fun o => if markedDel ov o then idOf o else none)

/-- The override pass of `main`: patch every record, then drop the records
whose (post-loop) id is in `to_delete`. -/
def overridePass (ov : Overrides) (store : List PyDict) : List PyDict :=
  (store.map (patchStep ov)).filter (fun o =>
    match idOf o with
    | some i => !((toDelete ov store).contains i)
    | none => true)

/-! ## Cache (`cache.py`) -/

structure CacheEntry where
  filename : String
  cached_at : Int
deriving DecidableEq, Repr

/-- The persistent cache: the index plus the content files on disk.
Timestamps are in seconds. -/
structure CacheState where
  index : List (String × CacheEntry)
  files : List (String × String)
deriving DecidableEq, Repr

def idxGet (st : CacheState) (url : String) : Option CacheEntry :=
  ((st.index.find? (fun kv => kv.1 == url)).map (fun kv => kv.2))

def fileGet (st : CacheState) (fn : String) : Option String :=
  ((st.files.find? (fun kv => kv.1 == fn)).map (fun kv => kv.2))

def DEFAULT_TTL_HOURS : Int := 12

/-- `get(url, ttl_hours)` at wall-clock time `now`: missing index entry,
expiry (`now - cached_at > timedelta(hours=ttl)`), and missing backing file
each yield `None`, in that order of checks. -/
def cacheGet (st : CacheState) (url : String) (ttl_hours : Int) (now : Int) : Option String :=
  match idxGet st url with
  | none => none
  | some e =>
      if now - e.cached_at > ttl_hours * 3600 then none
      else
        match fileGet st e.filename with
        | none => none
        | some content => some content

/-! ## ISO date shape -/

/-- `YYYY-MM-DD`: ten characters, digits with dashes at positions 4 and 7. -/
def isIsoDate (s : String) : Bool :=
  match s.data with
  | [c1, c2, c3, c4, h1, c5, c6, h2, c7, c8] =>
      isDigitC c1 && isDigitC c2 && isDigitC c3 && isDigitC c4 && h1 = '-' &&
      isDigitC c5 && isDigitC c6 && h2 = '-' && isDigitC c7 && isDigitC c8
  | _ => false

/-! ## Lemmas about `dedupe` -/

theorem dedupeAux_subset (l : List MOpp) : ∀ (seen : List String), ∀ o ∈ dedupeAux seen l, o ∈ l := by
  induction l with
  | nil => intro seen o h; simp [dedupeAux] at h
  | cons x rest ih =>
    intro seen o h
    simp only [dedupeAux] at h
    split at h
    · exact List.mem_cons_of_mem _ (ih seen o h)
    · rcases List.mem_cons.mp h with rfl | h2
      · exact List.mem_cons_self _ _
      · exact List.mem_cons_of_mem _ (ih _ o h2)

theorem dedupeAux_mem_append (xs : List MOpp) :
    ∀ (seen : List String) (ys : List MOpp) (o : MOpp),
      (xs.map MOpp.id).Nodup → o ∈ xs → o.id ∉ seen →
      o ∈ dedupeAux seen (xs ++ ys) := by
  induction xs with
  | nil => intro seen ys o _ ho; exact absurd ho (List.not_mem_nil o)
  | cons x rest ih =>
    intro seen ys o hnd ho hs
    have hnd2 := hnd
    rw [List.map_cons, List.nodup_cons] at hnd2
    simp only [List.cons_append, dedupeAux]
    rcases List.mem_cons.mp ho with rfl | h2
    · rw [if_neg hs]
      exact List.mem_cons_self _ _
    · have hne : o.id ≠ x.id := by
        intro he
        exact hnd2.1 (he ▸ List.mem_map_of_mem MOpp.id h2)
      split
      · exact ih seen ys o hnd2.2 h2 hs
      · exact List.mem_cons_of_mem _
          (ih (x.id :: seen) ys o hnd2.2 h2 (by
            intro hmem
            rcases List.mem_cons.mp hmem with he | he
            · exact hne he
            · exact hs he))

theorem dedupeAux_nodup (l : List MOpp) :
    ∀ (seen : List String),
      ((dedupeAux seen l).map MOpp.id).Nodup ∧
      ∀ i ∈ (dedupeAux seen l).map MOpp.id, i ∉ seen := by
  induction l with
  | nil => intro seen; simp [dedupeAux]
  | cons x rest ih =>
    intro seen
    simp only [dedupeAux]
    split
    · exact ih seen
    · rename_i hx
      constructor
      · rw [List.map_cons, List.nodup_cons]
        refine ⟨fun hmem => ?_, (ih (x.id :: seen)).1⟩
        exact (ih (x.id :: seen)).2 x.id hmem (List.mem_cons_self _ _)
      · intro i hi
        rw [List.map_cons] at hi
        rcases List.mem_cons.mp hi with rfl | h2
        · exact hx
        · intro hmem
          exact (ih (x.id :: seen)).2 i h2 (List.mem_cons_of_mem _ hmem)

theorem refresh_keep (p : MOpp → Bool) (existing batch : List MOpp)
    (hnd : (existing.map MOpp.id).Nodup) :
    ∀ o ∈ existing, p o = true → o ∈ dedupe ((existing.filter p) ++ dedupe batch) := by
  intro o ho hp
  have hmemf : o ∈ existing.filter p := List.mem_filter.mpr ⟨ho, hp⟩
  have hndf : ((existing.filter p).map MOpp.id).Nodup :=
    hnd.sublist (List.Sublist.map MOpp.id (List.filter_sublist existing))
  exact dedupeAux_mem_append _ [] _ o hndf hmemf (List.not_mem_nil _)

theorem refresh_from (p : MOpp → Bool) (existing batch : List MOpp) :
    ∀ o ∈ dedupe ((existing.filter p) ++ dedupe batch),
      (o ∈ existing ∧ p o = true) ∨ o ∈ batch := by
  intro o ho
  have h2 := dedupeAux_subset _ [] o ho
  rcases List.mem_append.mp h2 with hl | hr
  · exact Or.inl (List.mem_filter.mp hl)
  · exact Or.inr (dedupeAux_subset _ [] o hr)

/-- C1: refreshing a source replaces its contribution wholesale.  For the
URF merge step (`o.get("source") != "URF"`) and the MEI merge step
(`"mei.columbia.edu" not in o.get("source_url", "")`): every record of a
different source survives unchanged, every record of the refreshed source
in the result comes from the fresh batch, the result is contained in the
kept records plus the batch and is globally deduplicated by id, and on the
concrete store `A(URF), B(URF), C(other)` re-scraped with only `A` the
result is exactly `{C, A}`. -/
theorem merge_refresh_replaces_source (existing batch : List MOpp)
    (hnd : (existing.map MOpp.id).Nodup) :
    (∀ o ∈ existing, o.source ≠ "URF" → o ∈ URF.mergeStep existing batch) ∧
    (∀ o ∈ URF.mergeStep existing batch, o.source = "URF" → o ∈ batch) ∧
    (∀ o ∈ URF.mergeStep existing batch, (o ∈ existing ∧ o.source ≠ "URF") ∨ o ∈ batch) ∧
    ((URF.mergeStep existing batch).map MOpp.id).Nodup ∧
    (∀ o ∈ existing, containsSub o.source_url.data "mei.columbia.edu".data = false →
      o ∈ MEI.mergeStep existing batch) ∧
    (∀ o ∈ MEI.mergeStep existing batch,
      containsSub o.source_url.data "mei.columbia.edu".data = true → o ∈ batch) ∧
    (∀ o ∈ MEI.mergeStep existing batch,
      (o ∈ existing ∧ containsSub o.source_url.data "mei.columbia.edu".data = false) ∨
      o ∈ batch) ∧
    ((MEI.mergeStep existing batch).map MOpp.id).Nodup := by
  refine ⟨?_, ?_, ?_, ?_, ?_, ?_, ?_, ?_⟩
  · intro o ho hs
    exact refresh_keep _ existing batch hnd o ho (by simp [bne, hs])
  · intro o ho hs
    rcases refresh_from _ existing batch o ho with ⟨_, hp⟩ | hb
    · simp [bne, hs] at hp
    · exact hb
  · intro o ho
    rcases refresh_from _ existing batch o ho with ⟨hmem, hp⟩ | hb
    · refine Or.inl ⟨hmem, fun hs => ?_⟩
      simp [bne, hs] at hp
    · exact Or.inr hb
  · exact (dedupeAux_nodup _ []).1
  · intro o ho hs
    exact refresh_keep _ existing batch hnd o ho (by simp [hs])
  · intro o ho hs
    rcases refresh_from _ existing batch o ho with ⟨_, hp⟩ | hb
    · simp [hs] at hp
    · exact hb
  · intro o ho
    rcases refresh_from _ existing batch o ho with ⟨hmem, hp⟩ | hb
    · refine Or.inl ⟨hmem, ?_⟩
      simpa using hp
    · exact Or.inr hb
  · exact (dedupeAux_nodup _ []).1

def exA : MOpp := ⟨"idA", "A", "URF", "https://urf.columbia.edu/opportunity/search"⟩

def exB : MOpp := ⟨"idB", "B", "URF", "https://urf.columbia.edu/opportunity/search"⟩

def exC : MOpp := ⟨"idC", "C", "Other", "https://other.example.edu"⟩

/-- Witness for C1: the concrete spec example, with the hypotheses
discharged: re-scraping URF with only `A` leaves exactly `{C, A}`. -/
theorem merge_refresh_replaces_source_witness :
    ([exA, exB, exC].map MOpp.id).Nodup ∧
    exC ∈ URF.mergeStep [exA, exB, exC] [exA] ∧
    URF.mergeStep [exA, exB, exC] [exA] = [exC, exA] := by
  refine ⟨by decide, ?_, by decide⟩
  exact (merge_refresh_replaces_source [exA, exB, exC] [exA] (by decide)).1 exC
    (by decide) (by decide)

/-! ## Lemmas about dict operations and the override pass -/

theorem dictGet_nil (k : String) : dictGet [] k = none := rfl

theorem dictGet_cons (kv : String × JVal) (d : PyDict) (k : String) :
    dictGet (kv :: d) k = if kv.1 = k then some kv.2 else dictGet d k := by
  by_cases h : kv.1 = k
  · rw [if_pos h]
    unfold dictGet
    rw [List.find?_cons_of_pos _ (by simp [h])]
    rfl
  · rw [if_neg h]
    unfold dictGet
    rw [List.find?_cons_of_neg _ (by simp [h])]

theorem dictGet_dictSet_self (d : PyDict) (k : String) (v : JVal) :
    dictGet (dictSet d k v) k = some v := by
  induction d with
  | nil => simp [dictSet, dictGet_cons, dictGet_nil]
  | cons kv rest ih =>
    by_cases h : kv.1 = k
    · simp [dictSet, h, dictGet_cons]
    · simp [dictSet, if_neg h, dictGet_cons, h, ih]

theorem dictGet_dictSet_ne (d : PyDict) (k k2 : String) (v : JVal) (h : k ≠ k2) :
    dictGet (dictSet d k v) k2 = dictGet d k2 := by
  induction d with
  | nil => simp [dictSet, dictGet_cons, dictGet_nil, h]
  | cons kv rest ih =>
    by_cases h2 : kv.1 = k
    · rw [show dictSet (kv :: rest) k v = (k, v) :: rest from by simp [dictSet, h2]]
      rw [dictGet_cons, dictGet_cons, if_neg h, if_neg (h2 ▸ h : ¬kv.1 = k2)]
    · rw [show dictSet (kv :: rest) k v = kv :: dictSet rest k v from by simp [dictSet, h2]]
      rw [dictGet_cons, dictGet_cons, ih]

theorem dictSet_self_of_get (d : PyDict) (k : String) (v : JVal)
    (h : dictGet d k = some v) : dictSet d k v = d := by
  induction d with
  | nil => simp [dictGet_nil] at h
  | cons kv rest ih =>
    rw [dictGet_cons] at h
    by_cases h2 : kv.1 = k
    · rw [if_pos h2] at h
      have hv : kv.2 = v := by injection h
      rw [show dictSet (kv :: rest) k v = (k, v) :: rest from by simp [dictSet, h2]]
      rw [← h2, ← hv]
    · rw [if_neg h2] at h
      simp [dictSet, if_neg h2, ih h]

theorem applyPatch_cons (o : PyDict) (kv : String × JVal) (rest : Patch) :
    applyPatch o (kv :: rest) =
      applyPatch (if kv.1 = "note" ∨ kv.1 = "deleted" then o else dictSet o kv.1 kv.2) rest :=
  rfl

theorem applyPatch_get_not_mem (p : Patch) : ∀ (o : PyDict) (k : String),
    (∀ kv ∈ p, kv.1 ≠ k) → dictGet (applyPatch o p) k = dictGet o k := by
  induction p with
  | nil => intro o k _; rfl
  | cons kv rest ih =>
    intro o k h
    rw [applyPatch_cons, ih _ k (fun x hx => h x (List.mem_cons_of_mem _ hx))]
    split
    · rfl
    · exact dictGet_dictSet_ne o kv.1 k kv.2 (h kv (List.mem_cons_self _ _))

theorem applyPatch_get_reserved (p : Patch) : ∀ (o : PyDict) (k : String),
    (k = "note" ∨ k = "deleted") → dictGet (applyPatch o p) k = dictGet o k := by
  induction p with
  | nil => intro o k _; rfl
  | cons kv rest ih =>
    intro o k hk
    rw [applyPatch_cons, ih _ k hk]
    split
    · rfl
    · rename_i hres
      refine dictGet_dictSet_ne o kv.1 k kv.2 (fun he => hres ?_)
      rcases hk with rfl | rfl
      · exact Or.inl he
      · exact Or.inr he

theorem applyPatch_get_mem (p : Patch) : ∀ (o : PyDict) (kv : String × JVal),
    kv ∈ p → kv.1 ≠ "note" → kv.1 ≠ "deleted" → (p.map Prod.fst).Nodup →
    dictGet (applyPatch o p) kv.1 = some kv.2 := by
  induction p with
  | nil => intro o kv h; exact absurd h (List.not_mem_nil kv)
  | cons x rest ih =>
    intro o kv hm h1 h2 hnd
    rw [List.map_cons, List.nodup_cons] at hnd
    rw [applyPatch_cons]
    rcases List.mem_cons.mp hm with rfl | hm2
    · rw [if_neg (by tauto)]
      rw [applyPatch_get_not_mem rest _ kv.1
        (fun y hy he => hnd.1 (he ▸ List.mem_map_of_mem Prod.fst hy))]
      exact dictGet_dictSet_self o kv.1 kv.2
    · exact ih _ kv hm2 h1 h2 hnd.2

theorem applyPatch_idem (p : Patch) : ∀ (o : PyDict),
    (p.map Prod.fst).Nodup → applyPatch (applyPatch o p) p = applyPatch o p := by
  induction p with
  | nil => intro o _; rfl
  | cons x rest ih =>
    intro o hnd
    rw [List.map_cons, List.nodup_cons] at hnd
    by_cases hres : x.1 = "note" ∨ x.1 = "deleted"
    · simp only [applyPatch_cons, if_pos hres]
      exact ih o hnd.2
    · simp only [applyPatch_cons, if_neg hres]
      have hget : dictGet (applyPatch (dictSet o x.1 x.2) rest) x.1 = some x.2 := by
        rw [applyPatch_get_not_mem rest _ x.1
          (fun y hy he => hnd.1 (he ▸ List.mem_map_of_mem Prod.fst hy))]
        exact dictGet_dictSet_self o x.1 x.2
      rw [dictSet_self_of_get _ _ _ hget]
      exact ih _ hnd.2

theorem ovGet_mem (ov : Overrides) (i : String) (p : Patch) (h : ovGet ov i = some p) :
    ∃ q ∈ ov, q.1 = i ∧ q.2 = p := by
  unfold ovGet at h
  cases hf : ov.find? (fun kv => kv.1 == i) with
  | none => rw [hf] at h; simp at h
  | some q =>
    rw [hf] at h
    simp at h
    have hq := List.mem_of_find?_eq_some hf
    have hp := List.find?_some hf
    simp only [beq_iff_eq] at hp
    exact ⟨q, hq, hp, h⟩

theorem idOf_applyPatch (o : PyDict) (p : Patch) (h : ∀ kv ∈ p, kv.1 ≠ "id") :
    idOf (applyPatch o p) = idOf o := by
  unfold idOf
  rw [applyPatch_get_not_mem p o "id" h]

theorem idOf_patchStep (ov : Overrides) (o : PyDict)
    (Hid : ∀ ip ∈ ov, ∀ kv ∈ ip.2, kv.1 ≠ "id") :
    idOf (patchStep ov o) = idOf o := by
  cases hI : idOf o with
  | none => simp [patchStep, hI]
  | some i =>
    cases hO : ovGet ov i with
    | none => simp [patchStep, hI, hO]
    | some p =>
      by_cases hDel : truthy (dictGet p "deleted") = true
      · simp [patchStep, hI, hO, hDel]
      · simp only [patchStep, hI, hO, if_neg hDel]
        obtain ⟨q, hq, _, hq2⟩ := ovGet_mem ov i p hO
        rw [idOf_applyPatch o p (fun kv hkv => Hid q hq kv (hq2 ▸ hkv))]
        exact hI

theorem mem_toDelete (ov : Overrides) (store : List PyDict) (r : PyDict) (i : String)
    (hr : r ∈ store) (hm : markedDel ov r = true) (hi : idOf r = some i) :
    i ∈ toDelete ov store := by
  unfold toDelete
  exact List.mem_filterMap.mpr ⟨r, hr, by rw [if_pos hm]; exact hi⟩

/-- C2 (amended): the override pass is idempotent for every store and every
overrides file whose patches do not touch the `id` field (patch key sets are
unique, as in any parsed JSON object).  The restriction is necessary: since
only `note` and `deleted` are reserved, a patch may rewrite a record's `id`
into another overridden id, and the second pass then changes the store
again. -/
theorem override_pass_idem (ov : Overrides) (store : List PyDict)
    (Hid : ∀ ip ∈ ov, ∀ kv ∈ ip.2, kv.1 ≠ "id")
    (Hnd : ∀ ip ∈ ov, (ip.2.map Prod.fst).Nodup) :
    overridePass ov (overridePass ov store) = overridePass ov store := by
  have hunmarked : ∀ o ∈ overridePass ov store, markedDel ov o = false := by
    intro o ho
    rcases List.mem_filter.mp ho with ⟨hmap, hpred⟩
    rcases List.mem_map.mp hmap with ⟨r, hr, hro⟩
    by_contra hcon
    rw [Bool.not_eq_false] at hcon
    have hio : idOf o = idOf r := by rw [← hro]; exact idOf_patchStep ov r Hid
    cases hI : idOf o with
    | none => rw [markedDel, hI] at hcon; simp [markedOf] at hcon
    | some i =>
      have hmr : markedDel ov r = true := by
        rw [markedDel, ← hio]
        rw [markedDel, hio] at hcon
        rw [← hio] at hcon
        exact hcon
      have hir : idOf r = some i := hio.symm.trans hI
      have hitd : i ∈ toDelete ov store := mem_toDelete ov store r i hr hmr hir
      rw [hI] at hpred
      simp only [Bool.not_eq_true'] at hpred
      have hc : (toDelete ov store).contains i = true := List.elem_eq_true_of_mem hitd
      rw [hc] at hpred
      cases hpred
  have htd : toDelete ov (overridePass ov store) = [] := by
    unfold toDelete
    rw [List.filterMap_eq_nil_iff]
    intro o ho
    rw [hunmarked o ho]
    simp
  have hfix : ∀ o ∈ overridePass ov store, patchStep ov o = o := by
    intro o ho
    rcases List.mem_filter.mp ho with ⟨hmap, _⟩
    rcases List.mem_map.mp hmap with ⟨r, hr, hro⟩
    cases hI : idOf r with
    | none =>
      have h1 : patchStep ov r = r := by simp [patchStep, hI]
      rw [← hro, h1]
      exact h1
    | some i =>
      cases hO : ovGet ov i with
      | none =>
        have h1 : patchStep ov r = r := by simp [patchStep, hI, hO]
        rw [← hro, h1]
        exact h1
      | some p =>
        obtain ⟨q, hq, _, hq2⟩ := ovGet_mem ov i p hO
        have hkeys : ∀ kv ∈ p, kv.1 ≠ "id" := fun kv hkv => Hid q hq kv (hq2 ▸ hkv)
        by_cases hDel : truthy (dictGet p "deleted") = true
        · have hmr : markedDel ov r = true := by
            rw [markedDel, hI]
            simp [markedOf, hO, hDel]
          have h1 : patchStep ov r = r := by simp [patchStep, hI, hO, hDel]
          have hmo : markedDel ov o = true := by rw [← hro, h1]; exact hmr
          rw [hunmarked o ho] at hmo
          cases hmo
        · have h1 : patchStep ov r = applyPatch r p := by
            simp [patchStep, hI, hO, hDel]
          have hio : idOf o = some i := by
            rw [← hro, h1, idOf_applyPatch r p hkeys]
            exact hI
          have h2 : patchStep ov o = applyPatch o p := by
            simp [patchStep, hio, hO, hDel]
          rw [h2, ← hro, h1]
          exact applyPatch_idem p r (hq2 ▸ Hnd q hq)
  calc overridePass ov (overridePass ov store)
      = ((overridePass ov store).map (patchStep ov)).filter (fun o =>
          match idOf o with
          | some i => !((toDelete ov (overridePass ov store)).contains i)
          | none => true) := rfl
    _ = ((overridePass ov store).map (patchStep ov)).filter (fun o =>
          match idOf o with
          | some i => !(([] : List String).contains i)
          | none => true) := by rw [htd]
    _ = ((overridePass ov store).map (fun o => o)).filter (fun o =>
          match idOf o with
          | some i => !(([] : List String).contains i)
          | none => true) := by rw [List.map_congr_left hfix]
    _ = overridePass ov store := by
          rw [show (overridePass ov store).map (fun o => o) = overridePass ov store from by simp]
          apply List.filter_eq_self.mpr
          intro o _
          cases idOf o <;> simp

/-- C2 counterexample: the claim as stated fails.  With store
`[{id: "a", name: "n"}]` and overrides `{a: {id: "b"}, b: {name: "z"}}`
the first pass renames the record to id `b`, and the second pass then
patches it again, so the two passes disagree. -/
theorem override_pass_idem_cex :
    overridePass [("a", [("id", JVal.str "b")]), ("b", [("name", JVal.str "z")])]
        (overridePass [("a", [("id", JVal.str "b")]), ("b", [("name", JVal.str "z")])]
          [[("id", JVal.str "a"), ("name", JVal.str "n")]]) ≠
      overridePass [("a", [("id", JVal.str "b")]), ("b", [("name", JVal.str "z")])]
        [[("id", JVal.str "a"), ("name", JVal.str "n")]] := by decide

def wOv : Overrides := [("x", [("deadline", JVal.str "2025-05-01")])]

def wStore : List PyDict := [[("id", JVal.str "x"), ("deadline", JVal.str "2025-01-01")]]

/-- Witness for C2: the amended idempotence applied to the spec's own
deadline-patch example. -/
theorem override_pass_idem_witness :
    (∀ ip ∈ wOv, ∀ kv ∈ ip.2, kv.1 ≠ "id") ∧
    overridePass wOv (overridePass wOv wStore) = overridePass wOv wStore :=
  ⟨by decide, override_pass_idem wOv wStore (by decide) (by decide)⟩

/-- C3: for a record whose id appears in the overrides: when the patch's
`deleted` key is truthy the record is left unpatched and no record with its
id survives into the output; otherwise every non-reserved patch key
overwrites the corresponding field, while `note` and `deleted` are never
written. -/
theorem override_patch_delete_semantics (ov : Overrides) (store : List PyDict)
    (r : PyDict) (i : String) (p : Patch)
    (hr : r ∈ store) (hid : idOf r = some i) (hov : ovGet ov i = some p)
    (hnd : (p.map Prod.fst).Nodup) :
    (truthy (dictGet p "deleted") = true →
      patchStep ov r = r ∧ ∀ o ∈ overridePass ov store, idOf o ≠ some i) ∧
    (truthy (dictGet p "deleted") = false →
      patchStep ov r = applyPatch r p ∧
      (∀ kv ∈ p, kv.1 ≠ "note" → kv.1 ≠ "deleted" →
        dictGet (applyPatch r p) kv.1 = some kv.2) ∧
      dictGet (applyPatch r p) "note" = dictGet r "note" ∧
      dictGet (applyPatch r p) "deleted" = dictGet r "deleted") := by
  constructor
  · intro hDel
    have h1 : patchStep ov r = r := by simp [patchStep, hid, hov, hDel]
    refine ⟨h1, ?_⟩
    intro o ho he
    have hmr : markedDel ov r = true := by
      rw [markedDel, hid]
      simp [markedOf, hov, hDel]
    have hitd : i ∈ toDelete ov store := mem_toDelete ov store r i hr hmr hid
    rcases List.mem_filter.mp ho with ⟨_, hpred⟩
    rw [he] at hpred
    simp only [Bool.not_eq_true'] at hpred
    have hc : (toDelete ov store).contains i = true := List.elem_eq_true_of_mem hitd
    rw [hc] at hpred
    cases hpred
  · intro hDel
    refine ⟨by simp [patchStep, hid, hov, hDel], ?_, ?_, ?_⟩
    · intro kv hkv h1 h2
      exact applyPatch_get_mem p r kv hkv h1 h2 hnd
    · exact applyPatch_get_reserved p r "note" (Or.inl rfl)
    · exact applyPatch_get_reserved p r "deleted" (Or.inr rfl)

def w3Ov : Overrides := [("a", [("deleted", JVal.bool true), ("note", JVal.str "dup")])]

def w3Store : List PyDict :=
  [[("id", JVal.str "a"), ("name", JVal.str "n")], [("id", JVal.str "c")]]

/-- Witness for C3: a concrete deletion-marked record is skipped by the
patch loop. -/
theorem override_patch_delete_semantics_witness :
    truthy (dictGet [("deleted", JVal.bool true), ("note", JVal.str "dup")] "deleted") = true ∧
    patchStep w3Ov [("id", JVal.str "a"), ("name", JVal.str "n")] =
      [("id", JVal.str "a"), ("name", JVal.str "n")] :=
  ⟨by decide,
   ((override_patch_delete_semantics w3Ov w3Store
      [("id", JVal.str "a"), ("name", JVal.str "n")] "a"
      [("deleted", JVal.bool true), ("note", JVal.str "dup")]
      (by decide) (by decide) (by decide) (by decide)).1 (by decide)).1⟩

/-! ## C4: identity stability -/

/-- C4 (amended): `generate_id` is a pure function of the *normalized*
name and source — equal after lowercasing and trimming leading/trailing
whitespace implies equal ids.  (Insensitivity to arbitrary internal
whitespace does not hold; see the counterexample.) -/
theorem generate_id_norm_insensitive (n1 s1 n2 s2 : String)
    (hn : pyStrip (pyLower n1) = pyStrip (pyLower n2))
    (hs : pyStrip (pyLower s1) = pyStrip (pyLower s2)) :
    generate_id n1 s1 = generate_id n2 s2 := by
  unfold generate_id normalizeId
  rw [hn, hs]

/-- C4 counterexample: two names differing only in (internal) whitespace
get different ids, because `str.strip` trims only the ends. -/
theorem generate_id_whitespace_cex :
    generate_id "ab" "s" ≠ generate_id "a b" "s" := by decide

/-- Witness for C4: the spec's example pair, with the normalization
hypotheses discharged concretely. -/
theorem generate_id_norm_insensitive_witness :
    pyStrip (pyLower "Fellowship X") = pyStrip (pyLower " fellowship x ") ∧
    generate_id "Fellowship X" "MEI" = generate_id " fellowship x " "mei" :=
  ⟨by decide, generate_id_norm_insensitive "Fellowship X" "MEI" " fellowship x " "mei"
    (by decide) (by decide)⟩

/-! ## C5/C6: deadline pattern priority and display totality -/

theorem pdGo_cons_some (t : String) (p : RE) (rest : List RE) (cap : MRes)
    (h : reSearch p t = some cap) :
    URF.pdGo t (p :: rest) =
      (tryParseIso (stripOrdinals (pyStrip (String.mk (cap.getD []))).data),
       some (pyStrip (String.mk (cap.getD [])))) := by
  unfold URF.pdGo
  rw [h]

theorem pdGo_cons_none (t : String) (p : RE) (rest : List RE)
    (h : reSearch p t = none) :
    URF.pdGo t (p :: rest) = URF.pdGo t rest := by
  conv_lhs => unfold URF.pdGo
  rw [h]

theorem pdGo_snd_isSome (t : String) : ∀ ps : List RE,
    (∃ p ∈ ps, (reSearch p t).isSome) → (URF.pdGo t ps).2.isSome := by
  intro ps
  induction ps with
  | nil => rintro ⟨p, hp, _⟩; exact absurd hp (List.not_mem_nil p)
  | cons q rest ih =>
    rintro ⟨p, hp, hs⟩
    cases hq : reSearch q t with
    | some cap => rw [pdGo_cons_some t q rest cap hq]; simp
    | none =>
      rw [pdGo_cons_none t q rest hq]
      rcases List.mem_cons.mp hp with rfl | h2
      · rw [hq] at hs; simp at hs
      · exact ih ⟨p, h2, hs⟩

theorem pdGo_all_none (t : String) : ∀ ps : List RE,
    (∀ p ∈ ps, reSearch p t = none) → URF.pdGo t ps = (none, none) := by
  intro ps
  induction ps with
  | nil => intro _; rfl
  | cons q rest ih =>
    intro h
    rw [pdGo_cons_none t q rest (h q (List.mem_cons_self _ _))]
    exact ih (fun p hp => h p (List.mem_cons_of_mem _ hp))

/-- C6: whenever some deadline pattern matches syntactically, the returned
display phrase is present even if no date format parses it; when no pattern
matches at all, both fields are absent.  The spec examples hold, including a
syntactic match whose ISO parse fails but whose display is kept. -/
theorem parse_deadline_display_total (t : String) :
    ((∃ p ∈ URF.patterns, (reSearch p t).isSome) → (URF.parse_deadline t).2.isSome) ∧
    ((∀ p ∈ URF.patterns, reSearch p t = none) → URF.parse_deadline t = (none, none)) ∧
    URF.parse_deadline "Deadline: March 6th, 2025 for all applicants" =
      (some "2025-03-06", some "March 6th, 2025") ∧
    URF.parse_deadline "rolling basis" = (none, none) ∧
    URF.parse_deadline "Submit by Smarch 15, 2025" = (none, some "Smarch 15, 2025") :=
  ⟨pdGo_snd_isSome t URF.patterns, pdGo_all_none t URF.patterns,
   by decide, by decide, by decide⟩

/-- Witness for C6: a pattern matches "Submit by Smarch 15, 2025"
syntactically, so the display field is present (though the ISO parse
fails). -/
theorem parse_deadline_display_total_witness :
    (URF.parse_deadline "Submit by Smarch 15, 2025").2.isSome :=
  (parse_deadline_display_total "Submit by Smarch 15, 2025").1
    ⟨URF.pat5,
     by
      unfold URF.patterns
      exact List.mem_cons_of_mem _ (List.mem_cons_of_mem _ (List.mem_cons_of_mem _
        (List.mem_cons_of_mem _ (List.mem_cons_self _ _)))),
     by decide⟩

/-- C5 (amended): the code evaluates the weekday-prefixed pattern FIRST,
before the labeled `deadline:`/`due:` patterns (the full source order is
weekday, labeled deadline, due, applications due/close, by/before, trailing
deadline, bare month).  Hence whenever the weekday pattern matches anywhere
in the text, its capture is the phrase returned, regardless of any labeled
date. -/
theorem parse_deadline_weekday_priority (t : String) (cap : MRes)
    (h : reSearch URF.pat1 t = some cap) :
    URF.parse_deadline t =
      (tryParseIso (stripOrdinals (pyStrip (String.mk (cap.getD []))).data),
       some (pyStrip (String.mk (cap.getD [])))) :=
  pdGo_cons_some t URF.pat1 [URF.pat2, URF.pat3, URF.pat4, URF.pat5, URF.pat6, URF.pat7] cap h

/-- C5 counterexample: a text containing both an explicitly labeled date
("Deadline: March 6, 2025") and a different weekday-prefixed date
("Friday, April 4, 2025").  The labeled pattern matches, yet the parser
returns the weekday date, refuting the claimed priority order. -/
theorem parse_deadline_weekday_priority_cex :
    reSearch URF.pat2 "Deadline: March 6, 2025. Apply by Friday, April 4, 2025" =
      some (some "March 6, 2025".data) ∧
    (URF.parse_deadline "Deadline: March 6, 2025. Apply by Friday, April 4, 2025").2 =
      some "April 4, 2025" ∧
    ("April 4, 2025" : String) ≠ "March 6, 2025" :=
  ⟨by decide, by decide, by decide⟩

/-- Witness for C5: the weekday pattern matches concretely and its capture
is returned. -/
theorem parse_deadline_weekday_priority_witness :
    reSearch URF.pat1 "Due Friday, April 4, 2025" = some (some "April 4, 2025".data) ∧
    URF.parse_deadline "Due Friday, April 4, 2025" =
      (some "2025-04-04", some "April 4, 2025") := by
  refine ⟨by decide, ?_⟩
  rw [parse_deadline_weekday_priority "Due Friday, April 4, 2025"
    (some "April 4, 2025".data) (by decide)]
  decide

/-! ## C7: level tagging and the "under" boundary -/

theorem isPrefixOf_of_append (p q : List Char) : ∀ l : List Char,
    ((p ++ q).isPrefixOf l) = true → p.isPrefixOf l = true := by
  induction p with
  | nil => intro l _; simp [List.isPrefixOf]
  | cons a p2 ih =>
    intro l h
    cases l with
    | nil => simp [List.isPrefixOf] at h
    | cons b l2 =>
      simp only [List.cons_append, List.isPrefixOf, Bool.and_eq_true] at h ⊢
      exact ⟨h.1, ih l2 h.2⟩

/-- Hypothesis shape for C7: every occurrence of "graduate" in the
(lowercased) text lies inside an occurrence of "undergraduate". -/
def onlyUnderGraduate (t : List Char) : Bool :=
  (List.range t.length).all (fun i =>
    !("graduate".data.isPrefixOf (t.drop i)) ||
    (decide (5 ≤ i) && "undergraduate".data.isPrefixOf (t.drop (i - 5))))

theorem gradStudentSearch_eq_false (t : List Char) (h : onlyUnderGraduate t = true) :
    gradStudentSearch t = false := by
  unfold gradStudentSearch
  rw [List.any_eq_false]
  intro i hi
  by_cases hgs : ("graduate student".data.isPrefixOf (t.drop i)) = true
  case neg => simp [hgs]
  case pos =>
    have hg : ("graduate".data.isPrefixOf (t.drop i)) = true := by
      have he : "graduate student".data = "graduate".data ++ " student".data := by decide
      exact isPrefixOf_of_append _ _ _ (by rw [← he]; exact hgs)
    have hil : i < t.length := by
      by_contra hle
      push_neg at hle
      rw [List.drop_eq_nil_of_le hle] at hgs
      simp [List.isPrefixOf] at hgs
    have hall := (List.all_eq_true.mp h) i (List.mem_range.mpr hil)
    simp only [hg, Bool.not_true, Bool.false_or, Bool.and_eq_true] at hall
    have hunder : "under".data.isPrefixOf (t.drop (i - 5)) = true := by
      have he : "undergraduate".data = "under".data ++ "graduate".data := by decide
      exact isPrefixOf_of_append _ _ _ (by rw [← he]; exact hall.2)
    simp [hgs, hall.1, hunder]

theorem tagsGet_assembleTags_level (lv cz ty fd fu : List String) :
    tagsGet (assembleTags lv cz ty fd fu) "level" = if lv.isEmpty then [] else lv := by
  cases lv <;> cases cz <;> cases ty <;> cases fd <;> cases fu <;>
    simp [assembleTags, tagsGet, List.filter, List.find?]

theorem tagsGet_assembleTags_citizenship (lv cz ty fd fu : List String) :
    tagsGet (assembleTags lv cz ty fd fu) "citizenship" = if cz.isEmpty then [] else cz := by
  cases lv <;> cases cz <;> cases ty <;> cases fd <;> cases fu <;>
    simp [assembleTags, tagsGet, List.filter, List.find?]

theorem tagsGet_assembleTags_funding (lv cz ty fd fu : List String) :
    tagsGet (assembleTags lv cz ty fd fu) "funding" = if fu.isEmpty then [] else fu := by
  cases lv <;> cases cz <;> cases ty <;> cases fd <;> cases fu <;>
    simp [assembleTags, tagsGet, List.filter, List.find?]

/-- C7 (amended): the boundary statement holds — a text whose every
occurrence of "graduate" lies inside "undergraduate" and that contains no
explicit graduate keyword is not tagged `graduate` by either scraper.  (In
the spec's example sentence, however, "graduate and" is not followed by
"student", so the example text is tagged level `["undergraduate"]` only;
see the counterexample.) -/
theorem level_tag_under_boundary (text : String)
    (h1 : onlyUnderGraduate (pyLower text).data = true)
    (h2 : anySub (pyLower text).data
      [mastersKw, "master ", "doctoral", "phd", "ph.d", "dissertation"] = false) :
    "graduate" ∉ tagsGet (MEI.generate_tags text) "level" ∧
    "graduate" ∉ tagsGet (URF.generate_tags text) "level" := by
  have hg := gradStudentSearch_eq_false _ h1
  constructor
  · simp only [MEI.generate_tags]
    rw [tagsGet_assembleTags_level]
    simp [h2, hg]
  · simp only [URF.generate_tags]
    rw [tagsGet_assembleTags_level]
    simp [h2, hg]

/-- C7 counterexample: on the spec's example text the only occurrence of
"graduate student" sits inside "undergraduate students", so neither scraper
emits the `graduate` level tag; the level is exactly `["undergraduate"]`
(citizenship is `["us_citizen"]` as claimed). -/
theorem level_tag_under_boundary_cex :
    tagsGet (MEI.generate_tags
      "This fellowship is for graduate and undergraduate students who are U.S. citizens")
      "level" = ["undergraduate"] ∧
    tagsGet (URF.generate_tags
      "This fellowship is for graduate and undergraduate students who are U.S. citizens")
      "level" = ["undergraduate"] ∧
    tagsGet (MEI.generate_tags
      "This fellowship is for graduate and undergraduate students who are U.S. citizens")
      "citizenship" = ["us_citizen"] ∧
    tagsGet (URF.generate_tags
      "This fellowship is for graduate and undergraduate students who are U.S. citizens")
      "citizenship" = ["us_citizen"] ∧
    "graduate" ∉ tagsGet (MEI.generate_tags
      "This fellowship is for graduate and undergraduate students who are U.S. citizens")
      "level" :=
  ⟨by decide, by decide, by decide, by decide, by decide⟩

/-- Witness for C7: the boundary statement applied to a concrete text. -/
theorem level_tag_under_boundary_witness :
    onlyUnderGraduate (pyLower "Undergraduate students welcome").data = true ∧
    "graduate" ∉ tagsGet (MEI.generate_tags "Undergraduate students welcome") "level" :=
  ⟨by decide,
   (level_tag_under_boundary "Undergraduate students welcome" (by decide) (by decide)).1⟩

/-! ## C8: funding tags -/

theorem dfsAux_sublist (l : List String) : ∀ seen, (dfsAux seen l).Sublist l := by
  induction l with
  | nil => intro seen; simp [dfsAux]
  | cons x rest ih =>
    intro seen
    simp only [dfsAux]
    split
    · exact (ih seen).cons x
    · exact (ih (x :: seen)).cons₂ x

theorem dfsAux_nodup (l : List String) :
    ∀ seen, (dfsAux seen l).Nodup ∧ ∀ x ∈ dfsAux seen l, x ∉ seen := by
  induction l with
  | nil => intro seen; simp [dfsAux]
  | cons x rest ih =>
    intro seen
    simp only [dfsAux]
    split
    · exact ih seen
    · rename_i hx
      refine ⟨List.nodup_cons.mpr ⟨fun hmem => ?_, (ih (x :: seen)).1⟩, ?_⟩
      · exact (ih (x :: seen)).2 x hmem (List.mem_cons_self _ _)
      · intro y hy
        rcases List.mem_cons.mp hy with rfl | h2
        · exact hx
        · intro hmem
          exact (ih (x :: seen)).2 y h2 (List.mem_cons_of_mem _ hmem)

theorem dedupFirstSeen_nodup (l : List String) : (dedupFirstSeen l).Nodup :=
  (dfsAux_nodup l []).1

theorem dedupFirstSeen_sublist (l : List String) : (dedupFirstSeen l).Sublist l :=
  dfsAux_sublist l []

theorem ite_isEmpty_self (l : List String) : (if l.isEmpty then ([] : List String) else l) = l := by
  cases l <;> simp

/-- C8 (amended): URF's funding tags are the distinct `$`-amounts in
first-seen order capped at 3 (no duplicates, a subsequence of the scanned
amounts); MEI's funding tags are the first 2 amounts WITHOUT deduplication.
On the spec example both give `["$3,500", "$5,000"]`. -/
theorem funding_tags_shape (text : String) :
    tagsGet (URF.generate_tags text) "funding" =
      (dedupFirstSeen (findAmounts text.data)).take 3 ∧
    (tagsGet (URF.generate_tags text) "funding").Nodup ∧
    (tagsGet (URF.generate_tags text) "funding").Sublist (findAmounts text.data) ∧
    (tagsGet (URF.generate_tags text) "funding").length ≤ 3 ∧
    tagsGet (MEI.generate_tags text) "funding" = (findAmounts text.data).take 2 ∧
    tagsGet (URF.generate_tags "$3,500 and $5,000 and $5,000") "funding" =
      ["$3,500", "$5,000"] ∧
    tagsGet (MEI.generate_tags "$3,500 and $5,000 and $5,000") "funding" =
      ["$3,500", "$5,000"] := by
  have hurf : tagsGet (URF.generate_tags text) "funding" =
      (dedupFirstSeen (findAmounts text.data)).take 3 := by
    simp only [URF.generate_tags]
    rw [tagsGet_assembleTags_funding, ite_isEmpty_self]
  have hmei : tagsGet (MEI.generate_tags text) "funding" = (findAmounts text.data).take 2 := by
    simp only [MEI.generate_tags]
    rw [tagsGet_assembleTags_funding, ite_isEmpty_self]
  refine ⟨hurf, ?_, ?_, ?_, hmei, by decide, by decide⟩
  · rw [hurf]
    exact List.Nodup.sublist (List.take_sublist _ _) (dedupFirstSeen_nodup _)
  · rw [hurf]
    exact (List.take_sublist _ _).trans (dedupFirstSeen_sublist _)
  · rw [hurf]
    exact List.length_take_le _ _

/-- C8 counterexample: MEI's funding list keeps duplicates, so the claimed
global "duplicates removed" property fails: `"$5 and $5"` yields
`["$5", "$5"]`. -/
theorem funding_tags_shape_cex :
    tagsGet (MEI.generate_tags "$5 and $5") "funding" = ["$5", "$5"] ∧
    ¬(tagsGet (MEI.generate_tags "$5 and $5") "funding").Nodup :=
  ⟨by decide, by decide⟩

/-! ## C9: cache TTL -/

def exCache : CacheState :=
  ⟨[("u", ⟨"f.html", 0⟩)], [("f.html", "html")]⟩

/-- C9: `get` returns content exactly when an index entry exists, the
elapsed time since capture is at most `ttl` hours, and the backing file
exists; every other case yields `none` (the embedding is a total function).
With the default 12-hour TTL an entry cached at time 0 is a hit one second
before and at exactly 43200 s, and a miss one second after. -/
theorem cache_get_ttl_spec :
    (∀ st url ttl now, (cacheGet st url ttl now).isSome = true ↔
      ∃ e, idxGet st url = some e ∧ now - e.cached_at ≤ ttl * 3600 ∧
        (fileGet st e.filename).isSome = true) ∧
    cacheGet exCache "u" DEFAULT_TTL_HOURS 43199 = some "html" ∧
    cacheGet exCache "u" DEFAULT_TTL_HOURS 43200 = some "html" ∧
    cacheGet exCache "u" DEFAULT_TTL_HOURS 43201 = none := by
  refine ⟨?_, by decide, by decide, by decide⟩
  intro st url ttl now
  cases hI : idxGet st url with
  | none => simp [cacheGet, hI]
  | some e =>
    by_cases hexp : now - e.cached_at > ttl * 3600
    · simp only [cacheGet, hI, if_pos hexp]
      constructor
      · intro h; simp at h
      · rintro ⟨e2, he2, hle, _⟩
        injection he2 with he2
        subst he2
        omega
    · simp only [cacheGet, hI, if_neg hexp]
      push_neg at hexp
      cases hF : fileGet st e.filename with
      | none =>
        simp only [hF]
        constructor
        · intro h; simp at h
        · rintro ⟨e2, he2, _, hf⟩
          injection he2 with he2
          subst he2
          rw [hF] at hf
          simp at hf
      | some c =>
        simp only [hF]
        constructor
        · intro _; exact ⟨e, rfl, hexp, by rw [hF]; rfl⟩
        · intro _; rfl

/-- Witness for C9: the hit/miss characterization instantiated at the
boundary time. -/
theorem cache_get_ttl_spec_witness :
    (cacheGet exCache "u" DEFAULT_TTL_HOURS 43200).isSome = true ↔
      ∃ e, idxGet exCache "u" = some e ∧
        (43200 : Int) - e.cached_at ≤ DEFAULT_TTL_HOURS * 3600 ∧
        (fileGet exCache e.filename).isSome = true :=
  cache_get_ttl_spec.1 exCache "u" DEFAULT_TTL_HOURS 43200

/-! ## C10: deadline field shapes -/

theorem isDigitC_digitChar10 (n : Nat) : isDigitC (digitChar10 n) = true := by
  have h : n % 10 < 10 := Nat.mod_lt _ (by omega)
  unfold digitChar10
  set k := n % 10 with hk
  interval_cases k <;> decide

theorem isIsoDate_isoOfDate (y m d : Nat) : isIsoDate (isoOfDate y m d) = true := by
  unfold isoOfDate isIsoDate
  simp [isDigitC_digitChar10]

theorem tryParseIso_iso (c : List Char) (s : String) (h : tryParseIso c = some s) :
    isIsoDate s = true := by
  unfold tryParseIso at h
  cases hval : (strptimeDate true true c <|> strptimeDate true false c <|>
      strptimeDate false true c <|> strptimeDate false false c) with
  | none => rw [hval] at h; simp at h
  | some ymd =>
    rw [hval] at h
    simp only [Option.some_inj] at h
    rw [← h]
    exact isIsoDate_isoOfDate ymd.1 ymd.2.1 ymd.2.2

theorem pdGo_fst_iso (t : String) : ∀ (ps : List RE) (s : String),
    (URF.pdGo t ps).1 = some s → isIsoDate s = true := by
  intro ps
  induction ps with
  | nil => intro s h; simp [URF.pdGo] at h
  | cons q rest ih =>
    intro s h
    cases hq : reSearch q t with
    | some cap =>
      rw [pdGo_cons_some t q rest cap hq] at h
      exact tryParseIso_iso _ s h
    | none =>
      rw [pdGo_cons_none t q rest hq] at h
      exact ih s h

/-- C10 (amended): the URF pipeline keeps `deadline` ISO-shaped — whenever
`parse_deadline` yields an ISO component it has the form `YYYY-MM-DD`, and
the raw phrase goes into the separate display component.  The MEI pipeline,
however, stores the RAW matched phrase in the record's `deadline` field
(`dl if dl else deadline(description)`) and produces no `deadline_display`
field at all. -/
theorem deadline_iso_fields :
    (∀ t s, (URF.parse_deadline t).1 = some s → isIsoDate s = true) ∧
    MEI.oppDeadline none "Deadline: March 6th, 2025 for all applicants" =
      some "March 6th, 2025" ∧
    isIsoDate "March 6th, 2025" = false := by
  refine ⟨?_, by decide, by decide⟩
  intro t s h
  exact pdGo_fst_iso t URF.patterns s h

/-- C10 counterexample: an MEI record built from a description with a
labeled deadline carries the raw phrase, not an ISO date, in `deadline`. -/
theorem deadline_iso_fields_cex :
    MEI.oppDeadline none "Apply now. Deadline: June 1st, 2025 at noon" =
      some "June 1st, 2025" ∧
    isIsoDate "June 1st, 2025" = false :=
  ⟨by decide, by decide⟩

/-- Witness for C10: the URF ISO guarantee at a concrete parse. -/
theorem deadline_iso_fields_witness :
    (URF.parse_deadline "Deadline: March 6th, 2025 for all applicants").1 =
      some "2025-03-06" ∧
    isIsoDate "2025-03-06" = true :=
  ⟨by decide,
   deadline_iso_fields.1 "Deadline: March 6th, 2025 for all applicants" "2025-03-06"
     (by decide)⟩
